import Mathlib

/-!
Verification of the MatrixKeypad scanner (src/MatrixKeypad.c, v1.1.0).

The state machine is embedded shallowly:
* `MatrixKeypad` mirrors `MatrixKeypad_t` (MatrixKeypad.h, lines 58-66).
* GPIO is external: a scan pass is abstracted by `active : Nat → Nat → Bool`,
  where `active r c = true` models `digitalRead(colPins[c]) == LOW` while
  `rowPins[r]` is driven LOW (an electrically active matrix cell).
* The blocking loops take the per-iteration cell activations as
  `Nat → Nat → Nat → Bool` (iteration index first) and a fuel bound;
  exhausted fuel (`none`) models a loop that is still running.
* The Arduino `millis()` clock is a 32-bit wrapping counter; a run of it is
  modelled by `clock : Nat → Nat` giving the true (unbounded) millisecond
  time at the i-th `millis()` call, so the value the program reads is
  `clock i % 2^32`.
* Null instances are modelled by `Option MatrixKeypad`; `malloc` failure in
  `MatrixKeypad_create` by the `allocOk` flag.
-/

/-- State of a keypad instance, `MatrixKeypad_t` (MatrixKeypad.h, lines 58-66).
Keys are C `char`s; `'\x00'` is the "no key" sentinel. -/
structure MatrixKeypad where
  rown : Nat
  coln : Nat
  rowPins : List Nat
  colPins : List Nat
  keyMap : List Char
  lastKey : Char
  buffer : Char
deriving DecidableEq

/-- Candidate key computed by the row/column sweep of `MatrixKeypad_scan`
(MatrixKeypad.c, lines 85-94): for each row in order, for each column in
order, an active cell overwrites `key` with `keyMap[row * coln + col]`;
no early break, initial value is the sentinel. -/
def scanKey (rown coln : Nat) (keyMap : List Char) (active : Nat → Nat → Bool) : Char :=
  (List.range rown).foldl (fun key row =>
    (List.range coln).foldl (fun key col =>
      if active row col then keyMap.getD (row * coln + col) '\x00' else key) key) '\x00'

/-- State update of `MatrixKeypad_scan` on a non-null instance
(MatrixKeypad.c, lines 85-101). -/
def scanStep (k : MatrixKeypad) (active : Nat → Nat → Bool) : MatrixKeypad :=
  let key := scanKey k.rown k.coln k.keyMap active
  if k.lastKey ≠ key then
    { k with lastKey := key, buffer := if key ≠ '\x00' then key else k.buffer }
  else k

/-- `MatrixKeypad_scan` (MatrixKeypad.c, lines 68-104); a null instance is
left untouched. -/
def MatrixKeypad_scan (keypad : Option MatrixKeypad) (active : Nat → Nat → Bool) :
    Option MatrixKeypad :=
  match keypad with
  | none => none
  | some k => some (scanStep k active)

/-- `MatrixKeypad_hasKey` (MatrixKeypad.c, lines 106-117). -/
def MatrixKeypad_hasKey (keypad : Option MatrixKeypad) : Bool :=
  match keypad with
  | none => false
  | some k => if k.buffer ≠ '\x00' then true else false

/-- `MatrixKeypad_getKey` (MatrixKeypad.c, lines 119-134): returns the
buffered key and the instance with the buffer cleared. -/
def MatrixKeypad_getKey (keypad : Option MatrixKeypad) : Char × Option MatrixKeypad :=
  match keypad with
  | none => ('\x00', none)
  | some k => (k.buffer, some { k with buffer := '\x00' })

/-- `MatrixKeypad_flush` (MatrixKeypad.c, lines 171-177). -/
def MatrixKeypad_flush (keypad : Option MatrixKeypad) : Option MatrixKeypad :=
  match keypad with
  | none => none
  | some k => some { k with buffer := '\x00' }

/-- `MatrixKeypad_create` (MatrixKeypad.c, lines 32-66): on allocation
failure (`allocOk = false`, `malloc` returning NULL) yields `none`;
otherwise the fields are initialized from the arguments and both state
slots are set to the sentinel.  The `pinMode`/`digitalWrite` configuration
calls are external GPIO effects with no bearing on the instance state. -/
def MatrixKeypad_create (keymap : List Char) (rowPins colPins : List Nat)
    (rown coln : Nat) (allocOk : Bool) : Option MatrixKeypad :=
  if allocOk then
    some { rown := rown, coln := coln, rowPins := rowPins, colPins := colPins,
           keyMap := keymap, lastKey := '\x00', buffer := '\x00' }
  else none

/-- Loop of `MatrixKeypad_waitForKey` (MatrixKeypad.c, line 145-147):
`while(!MatrixKeypad_hasKey(keypad)) { MatrixKeypad_scan(keypad); }`.
`active i` is the cell activation seen by the i-th scan; `none` = out of
fuel, i.e. the loop is still running. -/
def waitLoop : Nat → MatrixKeypad → (Nat → Nat → Nat → Bool) → Option MatrixKeypad
  | 0, _, _ => none
  | fuel+1, k, active =>
    if MatrixKeypad_hasKey (some k) then some k
    else waitLoop fuel (scanStep k (active 0)) (fun i => active (i+1))

/-- `MatrixKeypad_waitForKey` (MatrixKeypad.c, lines 136-151). -/
def MatrixKeypad_waitForKey (fuel : Nat) (keypad : Option MatrixKeypad)
    (active : Nat → Nat → Nat → Bool) : Option (Char × Option MatrixKeypad) :=
  match keypad with
  | none => some ('\x00', none)
  | some k => (waitLoop fuel k active).map (fun k' => MatrixKeypad_getKey (some k'))

/-- Loop of `MatrixKeypad_waitForKeyTimeout` (MatrixKeypad.c, line 163-165):
`while(!MatrixKeypad_hasKey(keypad) && ((millis() - startTime) <= timeout))`.
`startTime` has C type `uint16_t` (so it holds `millis()` truncated mod 2^16),
while `millis()` has type `unsigned long` (32-bit on Arduino); by the C usual
arithmetic conversions the subtraction is performed at 32-bit width, which is
mirrored by `(clock 0 % 2^32 + 2^32 - startTime) % 2^32`.  Each condition
evaluation that reaches the time check consumes one `millis()` call, so the
clock is shifted on recursion. -/
def waitTimeoutLoop : Nat → MatrixKeypad → (Nat → Nat → Nat → Bool) → (Nat → Nat) →
    Nat → Nat → Option MatrixKeypad
  | 0, _, _, _, _, _ => none
  | fuel+1, k, active, clock, startTime, timeout =>
    if MatrixKeypad_hasKey (some k) then some k
    else if (clock 0 % 2^32 + 2^32 - startTime) % 2^32 ≤ timeout then
      waitTimeoutLoop fuel (scanStep k (active 0)) (fun i => active (i+1))
        (fun i => clock (i+1)) startTime timeout
    else some k

/-- `MatrixKeypad_waitForKeyTimeout` (MatrixKeypad.c, lines 153-169):
`uint16_t startTime = millis();` truncates the 32-bit clock value mod 2^16
(this happens before the null check, but has no effect in the null case). -/
def MatrixKeypad_waitForKeyTimeout (fuel : Nat) (keypad : Option MatrixKeypad)
    (active : Nat → Nat → Nat → Bool) (clock : Nat → Nat) (timeout : Nat) :
    Option (Char × Option MatrixKeypad) :=
  let startTime := clock 0 % 2^16
  match keypad with
  | none => some ('\x00', none)
  | some k =>
    (waitTimeoutLoop fuel k active (fun i => clock (i+1)) startTime timeout).map
      (fun k' => MatrixKeypad_getKey (some k'))

/-- A fresh 1x1 keypad instance (key map `['A']`, nothing observed). -/
def kpA : MatrixKeypad :=
  { rown := 1, coln := 1, rowPins := [10], colPins := [6], keyMap := ['A'],
    lastKey := '\x00', buffer := '\x00' }

/-- A 1x1 keypad instance whose key `'A'` is currently held and buffered. -/
def kpHeld : MatrixKeypad :=
  { rown := 1, coln := 1, rowPins := [10], colPins := [6], keyMap := ['A'],
    lastKey := 'A', buffer := 'A' }

/-- Iteration-indexed activation where no cell is ever active. -/
def actNever : Nat → Nat → Nat → Bool := fun _ _ _ => false

/-- Single-pass activation where no cell is active. -/
def idlePass : Nat → Nat → Bool := fun _ _ => false

/-- Single-pass activation where every cell reads active (for a 1x1 grid:
cell (0,0) is pressed). -/
def pressPass : Nat → Nat → Bool := fun _ _ => true

/-- Claim C1: for every scanner instance and scan pass with candidate key
`k = scanKey …`: if `k` equals `lastKey` the state is unchanged; otherwise
`lastKey` becomes `k`, and `buffer` becomes `k` exactly when `k` is not the
sentinel — a sentinel candidate (release edge) leaves `buffer` untouched.
All three cases are captured by one unconditional state equation. -/
theorem scan_edge_update (kp : MatrixKeypad) (active : Nat → Nat → Bool) :
    MatrixKeypad_scan (some kp) active =
      some { kp with
        lastKey := scanKey kp.rown kp.coln kp.keyMap active,
        buffer :=
          if scanKey kp.rown kp.coln kp.keyMap active ≠ '\x00' ∧
             scanKey kp.rown kp.coln kp.keyMap active ≠ kp.lastKey
          then scanKey kp.rown kp.coln kp.keyMap active
          else kp.buffer } := by
  show some (scanStep kp active) = _
  unfold scanStep
  by_cases h : kp.lastKey = scanKey kp.rown kp.coln kp.keyMap active
  · simp [← h]
  · by_cases h0 : scanKey kp.rown kp.coln kp.keyMap active = '\x00'
    · have h1 : kp.lastKey ≠ '\x00' := h0 ▸ h
      simp [h, h0, h1]
    · simp [h, h0, Ne.symm h]

/-- Claim C2: `MatrixKeypad_getKey` on a non-null instance returns the
current buffer and clears it, so a second consecutive call (no intervening
scan) returns the sentinel. -/
theorem getKey_single_read (kp : MatrixKeypad) :
    MatrixKeypad_getKey (some kp) = (kp.buffer, some { kp with buffer := '\x00' }) ∧
    (MatrixKeypad_getKey (MatrixKeypad_getKey (some kp)).2).1 = '\x00' :=
  ⟨rfl, rfl⟩

/-- Claim C5: every operation invoked on a null instance is a no-op on
state and returns the sentinel (or `false`); none fails. -/
theorem null_instance_noop (active : Nat → Nat → Bool)
    (activeSeq : Nat → Nat → Nat → Bool) (clock : Nat → Nat) (timeout fuel : Nat) :
    MatrixKeypad_scan none active = none ∧
    MatrixKeypad_hasKey none = false ∧
    MatrixKeypad_getKey none = ('\x00', none) ∧
    MatrixKeypad_waitForKey fuel none activeSeq = some ('\x00', none) ∧
    MatrixKeypad_waitForKeyTimeout fuel none activeSeq clock timeout = some ('\x00', none) ∧
    MatrixKeypad_flush none = none :=
  ⟨rfl, rfl, rfl, rfl, rfl, rfl⟩

/-- Claim C8: `MatrixKeypad_create` returns `none` when instance storage
cannot be obtained, and otherwise an initialized instance whose geometry
and table references equal the arguments and whose `lastKey` and `buffer`
are the sentinel; it is total (never aborts) for every geometry. -/
theorem create_init (keymap : List Char) (rowPins colPins : List Nat)
    (rown coln : Nat) :
    MatrixKeypad_create keymap rowPins colPins rown coln false = none ∧
    MatrixKeypad_create keymap rowPins colPins rown coln true =
      some { rown := rown, coln := coln, rowPins := rowPins, colPins := colPins,
             keyMap := keymap, lastKey := '\x00', buffer := '\x00' } :=
  ⟨rfl, rfl⟩

/-- A fold whose step fixes every accumulator on the list's members leaves
the initial value unchanged. -/
theorem foldl_fixed {α β : Type} (step : α → β → α) (l : List β) (init : α)
    (h : ∀ b ∈ l, ∀ a, step a b = a) : l.foldl step init = init := by
  induction l generalizing init with
  | nil => rfl
  | cons x xs ih =>
    simp only [List.foldl_cons]
    rw [h x (List.mem_cons_self x xs)]
    exact ih init (fun b hb a => h b (List.mem_cons_of_mem _ hb) a)

/-- A fold preserves any predicate its step preserves. -/
theorem foldl_preserve {α β : Type} (P : α → Prop) (step : α → β → α) (l : List β)
    (init : α) (h0 : P init) (h : ∀ a b, P a → P (step a b)) :
    P (l.foldl step init) := by
  induction l generalizing init with
  | nil => exact h0
  | cons x xs ih =>
    simp only [List.foldl_cons]
    exact ih (step init x) (h init x h0)

/-- Largest index below the bound at which the predicate holds, if any —
the index that "wins" a no-early-break sweep such as the scan loops. -/
def lastHit (p : Nat → Bool) : Nat → Option Nat
  | 0 => none
  | n+1 => if p n then some n else lastHit p n

/-- A last-match-wins sweep over `0..n-1` computes the value at `lastHit`. -/
theorem foldl_lastHit {α : Type} (p : Nat → Bool) (f : Nat → α) (init : α)
    (n : Nat) :
    (List.range n).foldl (fun a i => if p i then f i else a) init
      = (lastHit p n).elim init f := by
  induction n with
  | zero => rfl
  | succ m ih =>
    rw [List.range_succ, List.foldl_append, ih]
    cases h : p m with
    | true => simp [lastHit, h]
    | false => simp [lastHit, h]

theorem lastHit_lt {p : Nat → Bool} {n i : Nat} (h : lastHit p n = some i) :
    i < n := by
  induction n with
  | zero => exact absurd h (by simp [lastHit])
  | succ m ih =>
    unfold lastHit at h
    by_cases hp : p m
    · rw [if_pos hp] at h
      cases h
      exact Nat.lt_succ_self _
    · rw [if_neg hp] at h
      exact Nat.lt_succ_of_lt (ih h)

theorem lastHit_prop {p : Nat → Bool} {n i : Nat} (h : lastHit p n = some i) :
    p i = true := by
  induction n with
  | zero => exact absurd h (by simp [lastHit])
  | succ m ih =>
    unfold lastHit at h
    by_cases hp : p m
    · rw [if_pos hp] at h
      cases h
      exact hp
    · rw [if_neg hp] at h
      exact ih h

theorem lastHit_max {p : Nat → Bool} {n i : Nat} (h : lastHit p n = some i) :
    ∀ j, j < n → p j = true → j ≤ i := by
  induction n with
  | zero => exact absurd h (by simp [lastHit])
  | succ m ih =>
    intro j hj hpj
    unfold lastHit at h
    by_cases hp : p m
    · rw [if_pos hp] at h
      cases h
      exact Nat.lt_succ_iff.mp hj
    · rw [if_neg hp] at h
      rcases Nat.lt_succ_iff_lt_or_eq.mp hj with hj' | hj'
      · exact ih h j hj' hpj
      · exact absurd (hj' ▸ hpj) (by simpa using hp)

theorem lastHit_isSome_of {p : Nat → Bool} {n i : Nat} (h : i < n)
    (hp : p i = true) : (lastHit p n).isSome = true := by
  induction n with
  | zero => exact absurd h (Nat.not_lt_zero i)
  | succ m ih =>
    unfold lastHit
    by_cases hpm : p m
    · rw [if_pos hpm]
      rfl
    · rw [if_neg hpm]
      rcases Nat.lt_succ_iff_lt_or_eq.mp h with h' | h'
      · exact ih h'
      · exact absurd (h' ▸ hp) (by simpa using hpm)

/-- Closed form of the scan sweep: the candidate key is determined by the
last row having any active column and, within it, the last active column. -/
theorem scanKey_eq (rown coln : Nat) (keyMap : List Char)
    (active : Nat → Nat → Bool) :
    scanKey rown coln keyMap active =
      (lastHit (fun row => (lastHit (active row) coln).isSome) rown).elim '\x00'
        (fun row =>
          keyMap.getD (row * coln + (lastHit (active row) coln).getD 0) '\x00') := by
  unfold scanKey
  have hstep : (fun (key : Char) (row : Nat) =>
      (List.range coln).foldl
        (fun key col => if active row col then keyMap.getD (row * coln + col) '\x00' else key)
        key)
    = (fun (key : Char) (row : Nat) =>
        if (lastHit (active row) coln).isSome then
          keyMap.getD (row * coln + (lastHit (active row) coln).getD 0) '\x00'
        else key) := by
    funext key row
    rw [foldl_lastHit (active row)
      (fun col => keyMap.getD (row * coln + col) '\x00') key coln]
    cases h : lastHit (active row) coln with
    | none => simp
    | some c => simp
  rw [hstep]
  exact foldl_lastHit _ _ '\x00' rown

/-- Claim C3: if at least one matrix cell reads active during a scan pass,
the candidate key equals the key map entry at the highest-indexed row with
an active column and, within that row, the highest-indexed active column
(rows and columns swept in increasing order, no early break, last match
wins). -/
theorem scan_tiebreak_last_active (kp : MatrixKeypad) (active : Nat → Nat → Bool)
    (r c : Nat) (hr : r < kp.rown) (hc : c < kp.coln) (hac : active r c = true) :
    ∃ R C, R < kp.rown ∧ C < kp.coln ∧ active R C = true ∧
      (∀ r', r' < kp.rown → (∃ c', c' < kp.coln ∧ active r' c' = true) → r' ≤ R) ∧
      (∀ c', c' < kp.coln → active R c' = true → c' ≤ C) ∧
      scanKey kp.rown kp.coln kp.keyMap active
        = kp.keyMap.getD (R * kp.coln + C) '\x00' := by
  have hq : (fun row => (lastHit (active row) kp.coln).isSome) r = true :=
    lastHit_isSome_of hc hac
  have houter : (lastHit (fun row => (lastHit (active row) kp.coln).isSome) kp.rown).isSome
      = true := lastHit_isSome_of hr hq
  rcases Option.isSome_iff_exists.mp houter with ⟨R, hR⟩
  have hqR : (lastHit (active R) kp.coln).isSome = true := lastHit_prop hR
  rcases Option.isSome_iff_exists.mp hqR with ⟨C, hC⟩
  refine ⟨R, C, lastHit_lt hR, lastHit_lt hC, lastHit_prop hC, ?_, ?_, ?_⟩
  · intro r' hr' ⟨c', hc', hac'⟩
    exact lastHit_max hR r' hr' (lastHit_isSome_of hc' hac')
  · intro c' hc' hac'
    exact lastHit_max hC c' hc' hac'
  · rw [scanKey_eq, hR]
    show kp.keyMap.getD (R * kp.coln + (lastHit (active R) kp.coln).getD 0) '\x00'
      = kp.keyMap.getD (R * kp.coln + C) '\x00'
    rw [hC]
    rfl

/-- The 4x3 keypad of the spec's example scenario (rows [10,9,8,7],
columns [6,5,4], key map [['1','2','3'],['4','5','6'],['7','8','9'],
['*','0','#']]). -/
def kpExample : MatrixKeypad :=
  { rown := 4, coln := 3, rowPins := [10, 9, 8, 7], colPins := [6, 5, 4],
    keyMap := ['1', '2', '3', '4', '5', '6', '7', '8', '9', '*', '0', '#'],
    lastKey := '\x00', buffer := '\x00' }

/-- Activation with exactly cell (row 2, column 1) active. -/
def actExample : Nat → Nat → Bool := fun r c => r == 2 && c == 1

/-- Witness for claim C3 at the spec's example: with only cell (2,1) of the
4x3 example keypad active, the sweep's candidate is determined by the
maximal active row and column. -/
theorem scan_tiebreak_last_active_witness :
    (2 < kpExample.rown ∧ 1 < kpExample.coln ∧ actExample 2 1 = true) ∧
    ∃ R C, R < kpExample.rown ∧ C < kpExample.coln ∧ actExample R C = true ∧
      (∀ r', r' < kpExample.rown →
        (∃ c', c' < kpExample.coln ∧ actExample r' c' = true) → r' ≤ R) ∧
      (∀ c', c' < kpExample.coln → actExample R c' = true → c' ≤ C) ∧
      scanKey kpExample.rown kpExample.coln kpExample.keyMap actExample
        = kpExample.keyMap.getD (R * kpExample.coln + C) '\x00' :=
  ⟨⟨by decide, by decide, by decide⟩,
    scan_tiebreak_last_active kpExample actExample 2 1 (by decide) (by decide)
      (by decide)⟩

/-- An idle sweep (no active cell in range) leaves the sentinel candidate. -/
theorem scanKey_eq_sentinel_of_idle (rown coln : Nat) (keyMap : List Char)
    (active : Nat → Nat → Bool)
    (h : ∀ r, r < rown → ∀ c, c < coln → active r c = false) :
    scanKey rown coln keyMap active = '\x00' := by
  unfold scanKey
  apply foldl_fixed
  intro row hrow key
  apply foldl_fixed
  intro col hcol a
  rw [h row (List.mem_range.mp hrow) col (List.mem_range.mp hcol)]
  rfl

/-- Claim C7: starting from an instance with an empty event buffer, a scan
pass during which no cell reads active leaves `hasKey` false and `getKey`
returning the sentinel — no phantom presses. -/
theorem no_phantom_press (kp : MatrixKeypad) (active : Nat → Nat → Bool)
    (hbuf : kp.buffer = '\x00')
    (hidle : ∀ r, r < kp.rown → ∀ c, c < kp.coln → active r c = false) :
    MatrixKeypad_hasKey (MatrixKeypad_scan (some kp) active) = false ∧
    (MatrixKeypad_getKey (MatrixKeypad_scan (some kp) active)).1 = '\x00' := by
  have hk : scanKey kp.rown kp.coln kp.keyMap active = '\x00' :=
    scanKey_eq_sentinel_of_idle kp.rown kp.coln kp.keyMap active hidle
  have hb : (scanStep kp active).buffer = '\x00' := by
    simp only [scanStep, hk]
    by_cases h : kp.lastKey = '\x00' <;> simp [h, hbuf]
  constructor
  · show (if (scanStep kp active).buffer ≠ '\x00' then true else false) = false
    simp [hb]
  · show (scanStep kp active).buffer = '\x00'
    exact hb

/-- Witness for claim C7: a fresh 1x1 keypad scanned with no cell active
reports no event and yields the sentinel. -/
theorem no_phantom_press_witness :
    (kpA.buffer = '\x00' ∧
      ∀ r, r < kpA.rown → ∀ c, c < kpA.coln → idlePass r c = false) ∧
    MatrixKeypad_hasKey (MatrixKeypad_scan (some kpA) idlePass) = false ∧
    (MatrixKeypad_getKey (MatrixKeypad_scan (some kpA) idlePass)).1 = '\x00' :=
  ⟨⟨rfl, fun _ _ _ _ => rfl⟩,
    no_phantom_press kpA idlePass rfl (fun _ _ _ _ => rfl)⟩

/-- Claim C6: `MatrixKeypad_flush` clears the buffer and leaves `lastKey`
untouched, so afterwards `hasKey` is false; a scan whose candidate is the
still-held key (equal to `lastKey`, a non-sentinel) does not re-buffer it,
while an all-idle scan followed by a scan with that key active again does
re-buffer it. -/
theorem flush_clears_buffer_not_history (kp : MatrixKeypad)
    (aHold aIdle aAgain : Nat → Nat → Bool)
    (hK : kp.lastKey ≠ '\x00')
    (hHold : scanKey kp.rown kp.coln kp.keyMap aHold = kp.lastKey)
    (hIdle : scanKey kp.rown kp.coln kp.keyMap aIdle = '\x00')
    (hAgain : scanKey kp.rown kp.coln kp.keyMap aAgain = kp.lastKey) :
    MatrixKeypad_flush (some kp) = some { kp with buffer := '\x00' } ∧
    MatrixKeypad_hasKey (MatrixKeypad_flush (some kp)) = false ∧
    MatrixKeypad_scan (MatrixKeypad_flush (some kp)) aHold
      = some { kp with buffer := '\x00' } ∧
    MatrixKeypad_scan (MatrixKeypad_scan (MatrixKeypad_flush (some kp)) aIdle) aAgain
      = some { kp with buffer := kp.lastKey } := by
  refine ⟨rfl, by simp [MatrixKeypad_flush, MatrixKeypad_hasKey], ?_, ?_⟩
  · show some (scanStep { kp with buffer := '\x00' } aHold) = _
    unfold scanStep
    simp [hHold]
  · show some (scanStep (scanStep { kp with buffer := '\x00' } aIdle) aAgain) = _
    have h1 : scanStep { kp with buffer := '\x00' } aIdle
        = { kp with lastKey := '\x00', buffer := '\x00' } := by
      unfold scanStep
      simp [hIdle, hK]
    rw [h1]
    unfold scanStep
    simp [hAgain, hK, Ne.symm hK]

/-- Witness for claim C6 on the 1x1 keypad with key `'A'` held and
buffered: flushing, holding, idling and re-pressing behave as claimed. -/
theorem flush_clears_buffer_not_history_witness :
    (kpHeld.lastKey ≠ '\x00' ∧
      scanKey kpHeld.rown kpHeld.coln kpHeld.keyMap pressPass = kpHeld.lastKey ∧
      scanKey kpHeld.rown kpHeld.coln kpHeld.keyMap idlePass = '\x00' ∧
      scanKey kpHeld.rown kpHeld.coln kpHeld.keyMap pressPass = kpHeld.lastKey) ∧
    MatrixKeypad_flush (some kpHeld) = some { kpHeld with buffer := '\x00' } ∧
    MatrixKeypad_hasKey (MatrixKeypad_flush (some kpHeld)) = false ∧
    MatrixKeypad_scan (MatrixKeypad_flush (some kpHeld)) pressPass
      = some { kpHeld with buffer := '\x00' } ∧
    MatrixKeypad_scan (MatrixKeypad_scan (MatrixKeypad_flush (some kpHeld)) idlePass)
        pressPass
      = some { kpHeld with buffer := kpHeld.lastKey } :=
  ⟨⟨by decide, by decide, by decide, by decide⟩,
    flush_clears_buffer_not_history kpHeld pressPass idlePass pressPass
      (by decide) (by decide) (by decide) (by decide)⟩

/-- Modelled from the spec: the reading of `blockingWaitForKey` asserted by
claim C9 — "repeatedly calls scan then checks hasPendingEvent until true,
then returns consumeEvent's result", with at least one scan before the
first check of the event buffer.  Used only to compare against
`MatrixKeypad_waitForKey`, which follows the source order (check first,
then scan). -/
def scanFirstLoop : Nat → MatrixKeypad → (Nat → Nat → Nat → Bool) → Option MatrixKeypad
  | 0, _, _ => none
  | fuel+1, k, active =>
    let k' := scanStep k (active 0)
    if MatrixKeypad_hasKey (some k') then some k'
    else scanFirstLoop fuel k' (fun i => active (i+1))

/-- Modelled from the spec: wrapper of `scanFirstLoop` with the null case
and the `consumeEvent` result, mirroring claim C9's wording. -/
def waitForKey_scanFirstSpec (fuel : Nat) (keypad : Option MatrixKeypad)
    (active : Nat → Nat → Nat → Bool) : Option (Char × Option MatrixKeypad) :=
  match keypad with
  | none => some ('\x00', none)
  | some k => (scanFirstLoop fuel k active).map (fun k' => MatrixKeypad_getKey (some k'))

/-- Counterexample to claim C9: entering `MatrixKeypad_waitForKey` with key
`'A'` pending and the key no longer held, the source performs no scan at
all (the check precedes the first scan), so `lastKey` stays `'A'`; under
the claim's scan-then-check order one scan would run first and record the
release edge, leaving `lastKey` at the sentinel.  The two disagree at this
concrete input. -/
theorem waitForKey_checks_before_scan_cex :
    MatrixKeypad_waitForKey 1 (some kpHeld) actNever
      = some ('A', some { kpHeld with buffer := '\x00' }) ∧
    waitForKey_scanFirstSpec 1 (some kpHeld) actNever
      = some ('A', some { kpHeld with lastKey := '\x00', buffer := '\x00' }) ∧
    MatrixKeypad_waitForKey 1 (some kpHeld) actNever
      ≠ waitForKey_scanFirstSpec 1 (some kpHeld) actNever :=
  ⟨by decide, by decide, by decide⟩

/-- Claim C9 (amended): on a non-null instance, `MatrixKeypad_waitForKey`
first checks `hasKey`; if an event is already pending it returns
`getKey`'s result without performing any scan, and otherwise it scans once
and repeats. -/
theorem waitForKey_check_first (kp : MatrixKeypad)
    (active : Nat → Nat → Nat → Bool) (fuel : Nat) :
    MatrixKeypad_waitForKey (fuel+1) (some kp) active =
      if kp.buffer ≠ '\x00'
      then some (kp.buffer, some { kp with buffer := '\x00' })
      else MatrixKeypad_waitForKey fuel (some (scanStep kp (active 0)))
        (fun i => active (i+1)) := by
  by_cases h : kp.buffer = '\x00' <;>
    simp [MatrixKeypad_waitForKey, waitLoop, MatrixKeypad_hasKey,
      MatrixKeypad_getKey, h]

/-- Claim C4 is violated by the source: `startTime` is a `uint16_t` holding
`millis()` truncated mod 2^16, but `millis() - startTime` is computed at
the 32-bit width of `millis()`.  First conjunct: with the clock at
65536 ms (about 65.5 s of uptime, no key ever pressed, timeout 1000 ms)
the computed elapsed time is 65537 at the very first check, so the wait
returns the sentinel immediately — after at most 1 ms of real elapsed
time instead of approximately 1000 ms.  Second conjunct: the same call
with the clock starting at 0 is still looping after its 5 iterations of
fuel, showing that only the clock offset causes the instant return. -/
theorem waitForKeyTimeout_truncation_bug :
    MatrixKeypad_waitForKeyTimeout 5 (some kpA) actNever (fun i => 65536 + i) 1000
      = some ('\x00', some kpA) ∧
    MatrixKeypad_waitForKeyTimeout 5 (some kpA) actNever (fun i => i) 1000
      = none :=
  ⟨by decide, by decide⟩

/-- A list lookup with the sentinel default is the sentinel or a member. -/
theorem getD_sentinel_or_mem (l : List Char) (i : Nat) :
    l.getD i '\x00' = '\x00' ∨ l.getD i '\x00' ∈ l := by
  by_cases h : i < l.length
  · right
    rw [List.getD_eq_getElem l '\x00' h]
    exact List.getElem_mem h
  · left
    exact List.getD_eq_default l '\x00' (Nat.le_of_not_lt h)

/-- The sweep's candidate is the sentinel or an entry of the key map. -/
theorem scanKey_sentinel_or_mem (rown coln : Nat) (keyMap : List Char)
    (active : Nat → Nat → Bool) :
    scanKey rown coln keyMap active = '\x00' ∨
    scanKey rown coln keyMap active ∈ keyMap := by
  unfold scanKey
  apply foldl_preserve (fun key => key = '\x00' ∨ key ∈ keyMap)
  · exact Or.inl rfl
  · intro a row ha
    apply foldl_preserve (fun key => key = '\x00' ∨ key ∈ keyMap) _ _ a ha
    intro b col hb
    by_cases h : active row col
    · simpa [h] using getD_sentinel_or_mem keyMap (row * coln + col)
    · simpa [h] using hb

/-- Claim C10's invariant: `lastKey` and `buffer` are each the sentinel or
an entry of the instance's key map. -/
def KeyInv (k : MatrixKeypad) : Prop :=
  (k.lastKey = '\x00' ∨ k.lastKey ∈ k.keyMap) ∧
  (k.buffer = '\x00' ∨ k.buffer ∈ k.keyMap)

/-- `KeyInv` lifted to possibly-null instances (trivially true for null). -/
def KeyInvOpt : Option MatrixKeypad → Prop
  | none => True
  | some k => KeyInv k

/-- `KeyInv` on the instance returned with a key by the waiting operations
(`none` = loop still running). -/
def KeyInvRes : Option (Char × Option MatrixKeypad) → Prop
  | none => True
  | some r => KeyInvOpt r.2

theorem keyInv_scanStep (k : MatrixKeypad) (active : Nat → Nat → Bool)
    (hk : KeyInv k) : KeyInv (scanStep k active) := by
  unfold scanStep
  by_cases h : k.lastKey = scanKey k.rown k.coln k.keyMap active
  · simpa [h] using hk
  · rw [if_pos h]
    rcases scanKey_sentinel_or_mem k.rown k.coln k.keyMap active with h0 | hm
    · exact ⟨Or.inl h0, by simpa [h0] using hk.2⟩
    · refine ⟨Or.inr hm, ?_⟩
      by_cases h0 : scanKey k.rown k.coln k.keyMap active = '\x00'
      · simpa [h0] using hk.2
      · simp only [h0, if_true, ite_not]
        by_cases hb : scanKey k.rown k.coln k.keyMap active = '\x00'
        · exact absurd hb h0
        · simpa [hb] using hm

theorem keyInv_getKey (k : MatrixKeypad) (hk : KeyInv k) :
    KeyInvOpt (MatrixKeypad_getKey (some k)).2 :=
  ⟨hk.1, Or.inl rfl⟩

theorem keyInv_waitLoop (fuel : Nat) :
    ∀ (k : MatrixKeypad) (active : Nat → Nat → Nat → Bool),
      KeyInv k → KeyInvOpt (waitLoop fuel k active) := by
  induction fuel with
  | zero => intro k active _; exact trivial
  | succ m ih =>
    intro k active hk
    unfold waitLoop
    by_cases h : MatrixKeypad_hasKey (some k) = true
    · rw [if_pos h]
      exact hk
    · rw [if_neg h]
      exact ih (scanStep k (active 0)) (fun i => active (i+1))
        (keyInv_scanStep k (active 0) hk)

theorem keyInv_waitTimeoutLoop (fuel : Nat) :
    ∀ (k : MatrixKeypad) (active : Nat → Nat → Nat → Bool) (clock : Nat → Nat)
      (startTime timeout : Nat),
      KeyInv k → KeyInvOpt (waitTimeoutLoop fuel k active clock startTime timeout) := by
  induction fuel with
  | zero => intro k active clock startTime timeout _; exact trivial
  | succ m ih =>
    intro k active clock startTime timeout hk
    unfold waitTimeoutLoop
    by_cases h : MatrixKeypad_hasKey (some k) = true
    · rw [if_pos h]
      exact hk
    · rw [if_neg h]
      by_cases ht : (clock 0 % 2^32 + 2^32 - startTime) % 2^32 ≤ timeout
      · rw [if_pos ht]
        exact ih (scanStep k (active 0)) (fun i => active (i+1))
          (fun i => clock (i+1)) startTime timeout (keyInv_scanStep k (active 0) hk)
      · rw [if_neg ht]
        exact hk

/-- Claim C10: on an instance satisfying `KeyInv` (whose key map has no
sentinel entry), every operation yields states satisfying `KeyInv`:
`create` establishes it, and `scan`, `getKey`, `flush`, `waitForKey` and
`waitForKeyTimeout` preserve it — `buffer` and `lastKey` never hold a
non-sentinel value outside the key map. -/
theorem operations_preserve_key_invariant (keymap : List Char)
    (rowPins colPins : List Nat) (rown coln : Nat) (allocOk : Bool)
    (k : MatrixKeypad) (active : Nat → Nat → Bool)
    (activeSeq : Nat → Nat → Nat → Bool) (clock : Nat → Nat)
    (timeout fuel : Nat)
    (_hsent : '\x00' ∉ k.keyMap) (hk : KeyInv k) :
    KeyInvOpt (MatrixKeypad_create keymap rowPins colPins rown coln allocOk) ∧
    KeyInv (scanStep k active) ∧
    KeyInvOpt (MatrixKeypad_getKey (some k)).2 ∧
    KeyInvOpt (MatrixKeypad_flush (some k)) ∧
    KeyInvRes (MatrixKeypad_waitForKey fuel (some k) activeSeq) ∧
    KeyInvRes (MatrixKeypad_waitForKeyTimeout fuel (some k) activeSeq clock timeout) := by
  refine ⟨?_, keyInv_scanStep k active hk, keyInv_getKey k hk,
    ⟨hk.1, Or.inl rfl⟩, ?_, ?_⟩
  · cases allocOk with
    | false => exact trivial
    | true => exact ⟨Or.inl rfl, Or.inl rfl⟩
  · show KeyInvRes ((waitLoop fuel k activeSeq).map (fun k' => MatrixKeypad_getKey (some k')))
    have h := keyInv_waitLoop fuel k activeSeq hk
    cases hw : waitLoop fuel k activeSeq with
    | none => exact trivial
    | some k' =>
      rw [hw] at h
      exact keyInv_getKey k' h
  · show KeyInvRes ((waitTimeoutLoop fuel k activeSeq (fun i => clock (i+1))
      (clock 0 % 2^16) timeout).map (fun k' => MatrixKeypad_getKey (some k')))
    have h := keyInv_waitTimeoutLoop fuel k activeSeq (fun i => clock (i+1))
      (clock 0 % 2^16) timeout hk
    cases hw : waitTimeoutLoop fuel k activeSeq (fun i => clock (i+1))
        (clock 0 % 2^16) timeout with
    | none => exact trivial
    | some k' =>
      rw [hw] at h
      exact keyInv_getKey k' h

/-- Witness for claim C10 at the held 1x1 keypad: the sentinel is not a key
map entry, the invariant holds, and every operation's result keeps it. -/
theorem operations_preserve_key_invariant_witness :
    ('\x00' ∉ kpHeld.keyMap ∧ KeyInv kpHeld) ∧
    KeyInvOpt (MatrixKeypad_create ['A'] [10] [6] 1 1 true) ∧
    KeyInv (scanStep kpHeld pressPass) ∧
    KeyInvOpt (MatrixKeypad_getKey (some kpHeld)).2 ∧
    KeyInvOpt (MatrixKeypad_flush (some kpHeld)) ∧
    KeyInvRes (MatrixKeypad_waitForKey 1 (some kpHeld) actNever) ∧
    KeyInvRes (MatrixKeypad_waitForKeyTimeout 1 (some kpHeld) actNever
      (fun i => i) 100) :=
  ⟨⟨by decide, ⟨Or.inr (by decide), Or.inr (by decide)⟩⟩,
    operations_preserve_key_invariant ['A'] [10] [6] 1 1 true kpHeld pressPass
      actNever (fun i => i) 100 1 (by decide)
      ⟨Or.inr (by decide), Or.inr (by decide)⟩⟩
